import Mathlib

/-!
Shallow embedding of `src/privconvert.c` (proxmox-privconvert), the tool that
remaps UID/GID ownership and ACLs of container filesystem trees by a fixed
signed offset and patches the `unprivileged:` flag of the container
configuration file.

Machine integers are modelled as `Nat` with explicit reduction modulo `2 ^ 32`
where the C code's `uid_t`/`gid_t` (32-bit unsigned) arithmetic can wrap.
Filesystem side effects are modelled as an explicit trace of actions; the
per-run global state (`inode_table`, `g_files_processed`, `g_errors`) is an
explicit `RunState` threaded through the traversal.
-/

namespace Privconvert

/-- `UID_GID_OFFSET` from privconvert.c line 30. -/
def UID_GID_OFFSET : Int := 100000

/-- `MAX_UID_GID` from privconvert.c line 31. -/
def MAX_UID_GID : Nat := 200000

/-- Modulus of the C `uid_t` / `gid_t` type (32-bit unsigned). -/
def UID_MOD : Nat := 2 ^ 32

/-- The bounds-checked identity arithmetic shared by `process_file`
(privconvert.c lines 195-214) and `shift_acl` (lines 129-146): for a negative
offset, error (`none`) when `old < (uid_t)(-offset)` and otherwise subtract;
for a non-negative offset, add with 32-bit unsigned wraparound and error when
the result exceeds `MAX_UID_GID`.  The casts `(uid_t)(-offset)` and
`(uid_t)offset` are the reductions modulo `2 ^ 32`. -/
def computeNewId (offset : Int) (old : Nat) : Option Nat :=
  if offset < 0 then
    if old < Int.toNat (-offset) % UID_MOD then none
    else some (old - Int.toNat (-offset) % UID_MOD)
  else
    if (old + Int.toNat offset % UID_MOD) % UID_MOD > MAX_UID_GID then none
    else some ((old + Int.toNat offset % UID_MOD) % UID_MOD)

/-! ## Identity Hash Set (privconvert.c lines 38-92)

The C hash table (`inode_table`, chained buckets keyed by
`(dev ^ ino) % INODE_HASH_SIZE`) implements a set of `(device, inode)` pairs;
the chaining is an implementation detail of set membership, so the set is
embedded as the list of inserted pairs.  `inode_mark_seen`'s allocation
failure path (a `malloc` returning `NULL` is reported and the entry dropped)
is not modelled: allocation is assumed to succeed. -/

/-- `inode_seen` (privconvert.c lines 54-65): membership of `(dev, ino)`. -/
def inode_seen (table : List (Nat × Nat)) (dev ino : Nat) : Bool :=
  table.contains (dev, ino)

/-- `inode_mark_seen` (privconvert.c lines 68-79): insert `(dev, ino)`. -/
def inode_mark_seen (table : List (Nat × Nat)) (dev ino : Nat) : List (Nat × Nat) :=
  (dev, ino) :: table

/-! ## Object Converter (`process_file`, privconvert.c lines 172-257) -/

/-- The `lstat` snapshot of a visited object (`struct stat st`): device id,
inode number, current uid/gid, link/directory type bits, and mode. -/
structure FileStat where
  dev : Nat
  ino : Nat
  uid : Nat
  gid : Nat
  isLnk : Bool
  isDir : Bool
  mode : Nat
  deriving DecidableEq, Repr

/-- One entry handed to the `nftw` callback.  `statOk` models whether the
callback's own `lstat` succeeds, and `chownOk` whether `lchown` succeeds;
these are the two syscall failures `process_file` counts as per-object
errors. -/
structure VisitObj where
  statOk : Bool
  st : FileStat
  chownOk : Bool
  deriving DecidableEq, Repr

/-- A filesystem mutation emitted by `process_file`.  `lchown` is the
link-level ownership change (applied to the visited object itself — for a
symbolic link, the link, never its target); `chmod` the mode restoration;
`shiftAccessAcl` / `shiftDefaultAcl` the two `shift_acl` invocations. -/
inductive FsAction where
  | lchown (dev ino uid gid : Nat)
  | chmod (dev ino mode : Nat)
  | shiftAccessAcl (dev ino : Nat)
  | shiftDefaultAcl (dev ino : Nat)
  deriving DecidableEq, Repr

/-- The run-scoped global state of privconvert.c: the inode table plus the
`g_files_processed` and `g_errors` counters. -/
structure RunState where
  seen : List (Nat × Nat)
  filesProcessed : Nat
  errors : Nat
  deriving DecidableEq, Repr

/-- `process_file` (privconvert.c lines 172-257).  Returns the new run state,
the callback's return value (`0` continue, `1` stop traversal) and the list
of filesystem mutations attempted.  Control flow mirrors the C: stat failure
counts an error and continues; a seen `(dev, ino)` is skipped before any
mutation; the pair is marked seen before the bounds check and mutations; a
bounds violation (either uid or gid, cf. `computeNewId`) counts an error and
stops traversal; `lchown` failure counts an error and continues; for
non-symlinks the mode is restored and the access ACL (plus the default ACL
for directories) shifted, failures there being warnings only; finally the
processed counter is incremented. -/
def process_file (offset : Int) (s : RunState) (o : VisitObj) :
    RunState × Nat × List FsAction :=
  if o.statOk = false then
    ({ s with errors := s.errors + 1 }, 0, [])
  else if inode_seen s.seen o.st.dev o.st.ino then
    (s, 0, [])
  else
    let s1 : RunState := { s with seen := inode_mark_seen s.seen o.st.dev o.st.ino }
    match computeNewId offset o.st.uid, computeNewId offset o.st.gid with
    | some newUid, some newGid =>
      let tr := [FsAction.lchown o.st.dev o.st.ino newUid newGid]
      if o.chownOk = false then
        ({ s1 with errors := s1.errors + 1 }, 0, tr)
      else
        let tr := if o.st.isLnk then tr
          else tr ++ [FsAction.chmod o.st.dev o.st.ino o.st.mode,
                      FsAction.shiftAccessAcl o.st.dev o.st.ino] ++
            (if o.st.isDir then [FsAction.shiftDefaultAcl o.st.dev o.st.ino] else [])
        ({ s1 with filesProcessed := s1.filesProcessed + 1 }, 0, tr)
    | _, _ => ({ s1 with errors := s1.errors + 1 }, 1, [])

/-! ## Tree Walker (`nftw` with `FTW_PHYS | FTW_MOUNT`, privconvert.c line 281)

`nftw` presents the tree as a sequence of entries (the root first, then a
physical, mount-confined traversal) and stops as soon as the callback returns
a nonzero value, returning that value.  The walker is embedded as a fold of
`process_file` over the visit sequence that stops on a nonzero return. -/

/-- The walk of one root path: fold `process_file` over the visit list,
stopping (and returning the callback's value) on a nonzero return, and
concatenating the mutation traces. -/
def walkList (offset : Int) (s : RunState) : List VisitObj → RunState × Nat × List FsAction
  | [] => (s, 0, [])
  | o :: rest =>
    let r := process_file offset s o
    if r.2.1 ≠ 0 then r
    else
      let r2 := walkList offset r.1 rest
      (r2.1, r2.2.1, r.2.2 ++ r2.2.2)

/-! ## Conversion Driver (`convert_path`, privconvert.c lines 259-290, and the
path loop of `main`, lines 633-655) -/

/-- One resolved target path: whether the initial `stat` succeeds
(`pathOk`), whether it is a directory, and the visit sequence its `nftw`
walk would produce. -/
structure PathSpec where
  pathOk : Bool
  isDir : Bool
  objs : List VisitObj
  deriving DecidableEq, Repr

/-- The outcome `convert_path` reports for one path: `success` is its return
value (`true` for `0`, `false` for `-1`); `completed` records that the path
checks passed and the walk ran to the end of the tree (callback never
returned nonzero); `processed`/`errors` are the counters it prints; `trace`
the mutations performed under that root. -/
structure PathResult where
  success : Bool
  completed : Bool
  processed : Nat
  errors : Nat
  trace : List FsAction
  deriving DecidableEq, Repr

/-- `convert_path` (privconvert.c lines 259-290): fail fast when the path is
missing or not a directory; otherwise reset `g_files_processed` and
`g_errors` (the inode table is NOT reset — it is global across paths), walk
the tree, and return failure exactly when `g_errors > 0` at the end.  An
early stop of `nftw` via a callback return of `1` is not the `nftw == -1`
failure branch, but it always leaves `g_errors > 0`, so it still yields
failure.  Returns the threaded inode table together with the result. -/
def convert_path (offset : Int) (seen : List (Nat × Nat)) (p : PathSpec) :
    List (Nat × Nat) × PathResult :=
  if p.pathOk = false then (seen, ⟨false, false, 0, 0, []⟩)
  else if p.isDir = false then (seen, ⟨false, false, 0, 0, []⟩)
  else
    let w := walkList offset ⟨seen, 0, 0⟩ p.objs
    (w.1.seen, ⟨w.1.errors = 0, w.2.1 = 0, w.1.filesProcessed, w.1.errors, w.2.2⟩)

/-- The driver loop of `main` (privconvert.c lines 634-640): convert every
path in order, threading the global inode table, collecting every path's
result (a failed path does not stop the loop). -/
def runPaths (offset : Int) (seen : List (Nat × Nat)) :
    List PathSpec → List (Nat × Nat) × List PathResult
  | [] => (seen, [])
  | p :: rest =>
    let r := convert_path offset seen p
    let rs := runPaths offset r.1 rest
    (rs.1, r.2 :: rs.2)

/-- The whole conversion phase of `main`: run every path from an empty inode
table; the first component is `overall_result == 0`, i.e. whether every
`convert_path` call returned success (privconvert.c lines 634-647). -/
def mainConvert (offset : Int) (ps : List PathSpec) : Bool × List PathResult :=
  let rs := runPaths offset [] ps
  (rs.2.all (fun r => r.success), rs.2)

/-- Whether `main` reaches the `update_config` call (privconvert.c lines
642-655): exactly when the aggregate conversion result is success. -/
def configWritten (offset : Int) (ps : List PathSpec) : Bool :=
  (mainConvert offset ps).1

/-- The concatenated mutation trace of a whole run. -/
def runTrace (offset : Int) (ps : List PathSpec) : List FsAction :=
  ((mainConvert offset ps).2.map (fun r => r.trace)).flatten

/-! ## ACL Shift Transform (`shift_acl`, privconvert.c lines 94-170) -/

/-- ACL entry tag: only `ACL_USER` and `ACL_GROUP` entries carry a numeric
qualifier to remap; every other tag (owner, group-object, other, mask) is
represented by `other` and left untouched. -/
inductive AclTag where
  | user
  | group
  | other
  deriving DecidableEq, Repr

/-- One ACL entry: its tag and its qualifier.  `qualifier = none` models
`acl_get_qualifier` returning `NULL`, in which case the C code silently
skips the entry (the `if (qualifier)` guard at line 124). -/
structure AclEntry where
  tag : AclTag
  qualifier : Option Nat
  deriving DecidableEq, Repr

/-- What `acl_get_file` reports for an object: `unsupported` when `errno` is
`ENOTSUP`/`ENOSYS`, `getFailed` for any other failure, or the entry list. -/
inductive AclGetResult where
  | unsupported
  | getFailed
  | ok (entries : List AclEntry)
  deriving DecidableEq, Repr

/-- Result of `shift_acl`: `err` is the `-1` return (nothing was written to
disk on any `err` path — the single `acl_set_file` call sits after the whole
in-memory pass); `success written` is the `0` return, where `written` is the
ACL handed to `acl_set_file` when `needs_update` was set, or `none` when the
write was skipped. -/
inductive ShiftResult where
  | err
  | success (written : Option (List AclEntry))
  deriving DecidableEq, Repr

/-- The in-memory entry pass of `shift_acl` (privconvert.c lines 111-158):
walk the entries in order; for a USER/GROUP entry with a (non-`NULL`)
qualifier, apply the bounds-checked arithmetic — a violation aborts the whole
pass (`none`) — store the new qualifier and set `needs_update`; every other
entry is left as is.  Returns the updated entry list and the final
`needs_update` flag. -/
def shiftEntries (offset : Int) : List AclEntry → Option (List AclEntry × Bool)
  | [] => some ([], false)
  | e :: rest =>
    if e.tag = AclTag.user ∨ e.tag = AclTag.group then
      match e.qualifier with
      | some q =>
        match computeNewId offset q with
        | some newId =>
          match shiftEntries offset rest with
          | some (rest', _) => some ({ e with qualifier := some newId } :: rest', true)
          | none => none
        | none => none
      | none =>
        match shiftEntries offset rest with
        | some (rest', upd) => some (e :: rest', upd)
        | none => none
    else
      match shiftEntries offset rest with
      | some (rest', upd) => some (e :: rest', upd)
      | none => none

/-- `shift_acl` (privconvert.c lines 94-170) for one object and one ACL
variant, as a function of what `acl_get_file` returns: "ACLs unsupported" is
success with no write; any other read failure is an error; otherwise run the
in-memory pass and, only if some entry was updated, write the whole updated
ACL back (`acl_set_file`, line 162).  The `acl_get_tag_type` failure path
(line 116) is not modelled: tags are assumed readable. -/
def shift_acl (offset : Int) (g : AclGetResult) : ShiftResult :=
  match g with
  | AclGetResult.unsupported => ShiftResult.success none
  | AclGetResult.getFailed => ShiftResult.err
  | AclGetResult.ok entries =>
    match shiftEntries offset entries with
    | none => ShiftResult.err
    | some (entries', upd) =>
      ShiftResult.success (if upd then some entries' else none)

/-! ## Config State Patcher (`update_config`, privconvert.c lines 421-485)

The file is processed line by line (`fgets` loop); a line is embedded as its
character list, without the trailing newline (`fputs` copies a line verbatim
and `fprintf` writes a full flag line, so newline handling cancels out).
The atomic temp-file-and-rename mechanics (lines 428-446 and 477-482) are
filesystem plumbing outside the embedding; the function below is the content
transformation the patcher applies. -/

/-- A line of the configuration file, without its newline. -/
abbrev Line := List Char

/-- `line[0] == '['` (privconvert.c lines 365 and 452): the marker that
starts a trailing snapshot section. -/
def isBoundary : Line → Bool
  | [] => false
  | c :: _ => c = '['

/-- `strncmp(line, "unprivileged:", 13) == 0` (privconvert.c lines 370 and
460). -/
def isFlagLine (l : Line) : Bool :=
  "unprivileged:".data.isPrefixOf l

/-- The flag line `update_config` writes: `fprintf(fp_out, "unprivileged: %d\n",
new_unprivileged)` (privconvert.c lines 455, 462, 471), without the newline. -/
def flagLine (n : Int) : Line :=
  "unprivileged: ".data ++ (toString n).data

/-- The line loop of `update_config` (privconvert.c lines 449-472), with the
`updated` and `in_snapshot` flags explicit.  A `[`-line first flushes the new
flag line when none was written yet and we are still in the primary section,
and enters snapshot mode; a flag line in the primary section is replaced; any
other line is copied verbatim; at end of input the flag line is appended when
it was never written. -/
def updateLines (n : Int) (updated inSnapshot : Bool) : List Line → List Line
  | [] => if updated then [] else [flagLine n]
  | l :: rest =>
    if isBoundary l then
      if updated = false ∧ inSnapshot = false then
        flagLine n :: l :: updateLines n true true rest
      else
        l :: updateLines n updated true rest
    else if inSnapshot = false ∧ isFlagLine l then
      flagLine n :: updateLines n true inSnapshot rest
    else
      l :: updateLines n updated inSnapshot rest

/-- `update_config` (privconvert.c lines 421-485) as the content
transformation it applies to the configuration's line list. -/
def update_config (n : Int) (lines : List Line) : List Line :=
  updateLines n false false lines

/-! ## Configuration reading (`read_config` and helpers, privconvert.c lines
292-419) and the `main` pipeline (lines 541-663) -/

/-- C `isspace` on the ASCII characters it accepts. -/
def isSpaceChar (c : Char) : Bool :=
  c = ' ' ∨ c = '\t' ∨ c = '\n' ∨ c = '\x0d' ∨ c = '\x0b' ∨ c = '\x0c'

/-- Decimal digit test used by `atoi`. -/
def isDigitChar (c : Char) : Bool :=
  '0' ≤ c ∧ c ≤ '9'

/-- Digit-accumulation loop of C `atoi`: consume leading digits, stop at the
first non-digit. -/
def atoiDigits : List Char → Nat → Nat
  | c :: rest, acc =>
    if isDigitChar c then atoiDigits rest (acc * 10 + (c.toNat - '0'.toNat)) else acc
  | [], acc => acc

/-- C `atoi`: skip leading whitespace, optional sign, then digits (an empty
digit run yields 0). -/
def atoi (l : List Char) : Int :=
  match l.dropWhile isSpaceChar with
  | '-' :: rest => -(atoiDigits rest 0 : Int)
  | '+' :: rest => (atoiDigits rest 0 : Int)
  | rest => (atoiDigits rest 0 : Int)

/-- The characters after the first `:` of a line (`strchr(line, ':')`,
privconvert.c line 314), or `none` when there is no colon. -/
def afterColon : Line → Option Line
  | [] => none
  | c :: rest => if c = ':' then some rest else afterColon rest

/-- `extract_storage_spec` (privconvert.c lines 313-341): take everything
after the first colon, skip leading whitespace, cut at the first comma if
any (no trailing trim in that case) or trim trailing whitespace otherwise;
fail when there is no colon or the spec does not fit the 512-byte buffer. -/
def extract_storage_spec (l : Line) : Option Line :=
  match afterColon l with
  | none => none
  | some s =>
    let s := s.dropWhile isSpaceChar
    let spec := if s.contains ',' then s.takeWhile (fun c => c ≠ ',')
      else (s.reverse.dropWhile isSpaceChar).reverse
    if spec.length ≥ 512 then none else some spec

/-- `parse_storage_path` (privconvert.c lines 293-310): a spec starting with
`/` is the path itself; otherwise `pool:subvol` becomes `/pool/subvol`, via
`sscanf("%255[^:]:%511s")` — a nonempty colon-free pool, the literal colon,
then (after `%s` whitespace skipping) a nonempty whitespace-free subvol.
The 255/511 field-width truncation of over-long components is not
modelled. -/
def parse_storage_path (spec : Line) : Option Line :=
  match spec with
  | '/' :: _ => some spec
  | _ =>
    let pool := spec.takeWhile (fun c => c ≠ ':')
    if pool = [] then none
    else
      match spec.dropWhile (fun c => c ≠ ':') with
      | ':' :: tail =>
        let tail := tail.dropWhile isSpaceChar
        let subvol := tail.takeWhile (fun c => isSpaceChar c = false)
        if subvol = [] then none
        else some ('/' :: pool ++ '/' :: subvol)
      | _ => none

/-- The `rootfs:` / `mp…:` test of `read_config` (privconvert.c lines
378-379). -/
def isRootfsOrMp (l : Line) : Bool :=
  "rootfs:".data.isPrefixOf l ∨ ("mp".data.isPrefixOf l ∧ l.contains ':')

/-- `MAX_PATHS` from privconvert.c line 27. -/
def MAX_PATHS : Nat := 64

/-- The line loop of `read_config` (privconvert.c lines 359-410): stop at the
first `[` line; a primary-section `unprivileged:` line sets the current
state via `atoi` of the rest of the line (later lines overwrite earlier
ones); a `rootfs:`/`mp…:` line contributes a path when extraction and
parsing succeed and the path is not already present; exceeding `MAX_PATHS`
extractable specs is a fatal error (`none`).  Accumulates the paths in
order. -/
def read_config_loop : List Line → List Line → Int → Option (List Line × Int)
  | [], paths, cur => some (paths, cur)
  | l :: rest, paths, cur =>
    if isBoundary l then some (paths, cur)
    else if isFlagLine l then
      read_config_loop rest paths (atoi ((l.drop 13).dropWhile isSpaceChar))
    else if isRootfsOrMp l then
      match extract_storage_spec l with
      | some spec =>
        if paths.length ≥ MAX_PATHS then none
        else
          match parse_storage_path spec with
          | some p =>
            if paths.contains p then read_config_loop rest paths cur
            else read_config_loop rest (paths ++ [p]) cur
          | none => read_config_loop rest paths cur
      | none => read_config_loop rest paths cur
    else read_config_loop rest paths cur

/-- `read_config` (privconvert.c lines 344-419): the extracted target paths
and the `current_unprivileged` value (initially `-1`, meaning "not found").
The file-open failure path is outside the embedding (the content is given);
`none` is the "Too many mount points" error return. -/
def read_config (cfg : List Line) : Option (List Line × Int) :=
  read_config_loop cfg [] (-1)

/-- Outcome of a run of `main` from the point where the configuration has
been read: process exit code, the filesystem mutation trace, and the final
content of the configuration file. -/
structure MainOutcome where
  exitCode : Nat
  trace : List FsAction
  finalConfig : List Line
  deriving DecidableEq, Repr

/-- The `main` pipeline (privconvert.c lines 585-662) from `read_config`
onward, for a given configuration content and target state.  The earlier
steps — argument parsing, the container-running probe, the interactive
confirmation and the root check (lines 550-631) — concern inputs other than
the configuration and are taken as passed ('yes' answered, running as root).
`fsOf` resolves each extracted path to the tree its walk would visit.
Control flow: a `read_config` error or an empty path list exits 1 with
nothing touched; a recorded current state equal to the target exits 0 before
any conversion; otherwise every path is converted and, exactly on aggregate
success, `update_config` rewrites the flag (lines 642-655). -/
def mainRun (cfg : List Line) (targetUnprivileged : Bool) (fsOf : Line → PathSpec) :
    MainOutcome :=
  let offset : Int := if targetUnprivileged then UID_GID_OFFSET else -UID_GID_OFFSET
  let target : Int := if targetUnprivileged then 1 else 0
  match read_config cfg with
  | none => ⟨1, [], cfg⟩
  | some (paths, cur) =>
    if paths.length = 0 then ⟨1, [], cfg⟩
    else if cur ≠ -1 ∧ cur = target then ⟨0, [], cfg⟩
    else
      let ps := paths.map fsOf
      if configWritten offset ps then
        ⟨0, runTrace offset ps, update_config target cfg⟩
      else
        ⟨1, runTrace offset ps, cfg⟩

/-! ## Derived observation helpers and concrete scenario inputs -/

/-- Number of `lchown` actions in a trace that target `(dev, ino)`. -/
def chownCount (tr : List FsAction) (dev ino : Nat) : Nat :=
  tr.countP (fun a =>
    match a with
    | FsAction.lchown d i _ _ => d == dev && i == ino
    | _ => false)

/-- An ACL entry `shift_acl` actually rewrites: USER/GROUP tag with a
non-`NULL` qualifier. -/
def isShiftable (e : AclEntry) : Bool :=
  (e.tag == AclTag.user || e.tag == AclTag.group) && e.qualifier.isSome

/-- Effect of one trace action on the ownership map `(dev, ino) ↦ (uid, gid)`:
only `lchown` changes ownership. -/
def applyAction (fs : Nat × Nat → Nat × Nat) : FsAction → (Nat × Nat → Nat × Nat)
  | FsAction.lchown d i u g => fun k => if k = (d, i) then (u, g) else fs k
  | _ => fs

/-- Ownership map after a whole trace. -/
def applyActions (fs : Nat × Nat → Nat × Nat) (tr : List FsAction) :
    Nat × Nat → Nat × Nat :=
  tr.foldl applyAction fs

/-- Replacement applied to a primary-section line: a flag line becomes the
new flag line, anything else is kept. -/
def replaceFlag (n : Int) (l : Line) : Line :=
  if isFlagLine l then flagLine n else l

/-- The target paths `read_config` extracts (empty when it fails). -/
def configPaths (cfg : List Line) : List Line :=
  ((read_config cfg).map Prod.fst).getD []

/-- Concrete object for the negative-offset upper-bound check: a symbolic
link on device 7, inode 9, with uid = gid = 400000. -/
def obj400k : VisitObj := ⟨true, ⟨7, 9, 400000, 400000, true, false, 511⟩, true⟩

/-- Two-level hardlink scenario, root directory `root` (device 1, inode 2). -/
def c9Root : VisitObj := ⟨true, ⟨1, 2, 0, 0, false, true, 493⟩, true⟩

/-- Scenario file `root/a`, inode 5, uid = gid = 1000. -/
def c9A : VisitObj := ⟨true, ⟨1, 5, 1000, 1000, false, false, 420⟩, true⟩

/-- Scenario directory `root/sub`, inode 3. -/
def c9Sub : VisitObj := ⟨true, ⟨1, 3, 0, 0, false, true, 493⟩, true⟩

/-- Scenario file `root/sub/b`, a hardlink to `root/a` (same device 1,
inode 5, same stat). -/
def c9B : VisitObj := ⟨true, ⟨1, 5, 1000, 1000, false, false, 420⟩, true⟩

/-- The visit sequence of the scenario tree (root first, physical
traversal). -/
def c9Objs : List VisitObj := [c9Root, c9A, c9Sub, c9B]

/-- Initial ownership map of the scenario: inode `(1, 5)` is owned by
uid = gid = 1000. -/
def c9InitFs : Nat × Nat → Nat × Nat :=
  fun k => if k = (1, 5) then (1000, 1000) else (0, 0)

/-- Concrete symbolic link visit for the symlink-handling witness: device 2,
inode 11, uid = gid = 1000. -/
def c8Lnk : VisitObj := ⟨true, ⟨2, 11, 1000, 1000, true, false, 511⟩, true⟩

/-- Concrete overflow object: a regular file on device 4, inode 20, whose
uid = gid = 150000 already exceeds `MAX_UID_GID - 100000`. -/
def c3Obj : VisitObj := ⟨true, ⟨4, 20, 150000, 150000, false, false, 420⟩, true⟩

/-- A valid directory path whose tree consists of the overflow object. -/
def c3Path : PathSpec := ⟨true, true, [c3Obj]⟩

/-- A configuration with a flag line and one storage entry, used to
instantiate the driver-gating witnesses. -/
def c1Cfg : List Line :=
  ["unprivileged: 0".data, "rootfs: local:subvol-101-disk-0".data]

/-- A configuration whose primary section records `unprivileged: 1` but
contains no `rootfs:`/`mp…:` storage entry. -/
def c10Cfg : List Line := ["unprivileged: 1".data]

/-- A path resolver for runs that never reach conversion. -/
def noFs : Line → PathSpec := fun _ => ⟨false, false, []⟩

/-! ## Theorems -/

/-- C5: for every UID/GID `u` and offset `o ≥ 0` with `u + o ≤ MAX_ID`,
applying the identity transform with offset `+o` and then with offset `-o`
returns exactly `u`, and neither application reports a bounds error. -/
theorem claim5_roundtrip (u o : Nat) (h : u + o ≤ MAX_UID_GID) :
    computeNewId (o : Int) u = some (u + o) ∧
      computeNewId (-(o : Int)) (u + o) = some u := by
  have hb : u + o ≤ 200000 := h
  have hmod : o % UID_MOD = o := by
    unfold UID_MOD
    omega
  constructor
  · simp only [computeNewId]
    rw [if_neg (by omega : ¬ ((o : Int) < 0))]
    simp only [Int.toNat_natCast, hmod]
    rw [Nat.mod_eq_of_lt (by unfold UID_MOD; omega)]
    rw [if_neg (by omega)]
  · rcases Nat.eq_zero_or_pos o with ho | ho
    · subst ho
      simp only [computeNewId, Nat.cast_zero, neg_zero]
      rw [if_neg (by omega : ¬ ((0 : Int) < 0))]
      simp only [Int.toNat_zero, Nat.zero_mod, Nat.add_zero]
      rw [Nat.mod_eq_of_lt (by unfold UID_MOD; omega)]
      rw [if_neg (by omega)]
    · simp only [computeNewId]
      rw [if_pos (by omega : (-(o : Int) < 0))]
      rw [neg_neg, Int.toNat_natCast, hmod]
      rw [if_neg (by omega)]
      congr 1
      omega

/-- Witness for `claim5_roundtrip` at `u = 1000`, `o = 100000`. -/
theorem claim5_roundtrip_witness :
    1000 + 100000 ≤ MAX_UID_GID ∧
      (computeNewId ((100000 : Nat) : Int) 1000 = some (1000 + 100000) ∧
        computeNewId (-((100000 : Nat) : Int)) (1000 + 100000) = some 1000) :=
  ⟨by decide, claim5_roundtrip 1000 100000 (by decide)⟩

/-- C2, counterexample: with offset `-100000`, an object whose uid = gid =
400000 is converted without any error — `process_file` returns `0` with no
error counted and chowns it to 300000 — even though 300000 lies outside
`[0, MAX_UID_GID]`.  The claim's "for a negative offset the conversion fails
… also whenever the result `old - |offset|` exceeds MAX_ID" is false of the
code: the negative-offset branch checks only the underflow bound. -/
theorem claim2_counterexample :
    computeNewId (-100000) 400000 = some 300000 ∧ 300000 > MAX_UID_GID ∧
      process_file (-100000) ⟨[], 0, 0⟩ obj400k =
        (⟨[(7, 9)], 1, 0⟩, 0, [FsAction.lchown 7 9 300000 300000]) := by
  decide

/-- C2, amended: a computed identity is a fatal per-object error exactly when
(negative offset) the old id underflows `|offset|`, or (non-negative offset)
the wrapped sum exceeds `MAX_UID_GID`; only on the non-negative side is the
computed identity guaranteed to lie within `[0, MAX_UID_GID]` — the
negative-offset branch performs no upper-bound check.  At the object level,
`process_file` reports the traversal-stopping error exactly when the uid or
the gid computation fails. -/
theorem claim2_amended (offset : Int) (old : Nat) (s : RunState) (o : VisitObj) :
    (offset < 0 →
      (computeNewId offset old = none ↔ old < Int.toNat (-offset) % UID_MOD)) ∧
    (0 ≤ offset →
      (computeNewId offset old = none ↔
        (old + Int.toNat offset % UID_MOD) % UID_MOD > MAX_UID_GID)) ∧
    (0 ≤ offset → ∀ v, computeNewId offset old = some v → v ≤ MAX_UID_GID) ∧
    (o.statOk = true → inode_seen s.seen o.st.dev o.st.ino = false →
      ((process_file offset s o).2.1 = 1 ↔
        (computeNewId offset o.st.uid = none ∨ computeNewId offset o.st.gid = none))) := by
  refine ⟨?_, ?_, ?_, ?_⟩
  · intro hneg
    simp only [computeNewId, if_pos hneg]
    split <;> simp_all
  · intro hpos
    simp only [computeNewId, if_neg (by omega : ¬ offset < 0)]
    split <;> simp_all
  · intro hpos v hv
    simp only [computeNewId, if_neg (by omega : ¬ offset < 0)] at hv
    split at hv
    · exact absurd hv (by simp)
    · simp only [Option.some.injEq] at hv
      omega
  · intro h1 h2
    simp only [process_file, h1, h2]
    cases hu : computeNewId offset o.st.uid <;> cases hg : computeNewId offset o.st.gid
    · simp [hu, hg]
    · simp [hu, hg]
    · simp [hu, hg]
    · by_cases hc : o.chownOk = false <;> simp [hu, hg, hc]

/-- Witness for `claim2_amended` at offset `-100000`, old id `400000` and the
fresh-state visit of `obj400k`: instantiates every hypothesis. -/
theorem claim2_amended_witness :
    (computeNewId (-100000) 400000 = none ↔ 400000 < Int.toNat (-(-100000)) % UID_MOD) ∧
      ((process_file (-100000) ⟨[], 0, 0⟩ obj400k).2.1 = 1 ↔
        (computeNewId (-100000) obj400k.st.uid = none ∨
          computeNewId (-100000) obj400k.st.gid = none)) :=
  ⟨(claim2_amended (-100000) 400000 ⟨[], 0, 0⟩ obj400k).1 (by decide),
    (claim2_amended (-100000) 400000 ⟨[], 0, 0⟩ obj400k).2.2.2 (by decide) (by decide)⟩

/-- C8: for a symbolic link that is visited (stat succeeds, inode unseen,
ids in bounds, chown succeeds), the only mutation is the link-level `lchown`
of the object itself — in particular no mode restoration and no ACL shift
(access or default) is attempted on the link. -/
theorem claim8_symlink (offset : Int) (s : RunState) (o : VisitObj) (newUid newGid : Nat)
    (hstat : o.statOk = true)
    (hseen : inode_seen s.seen o.st.dev o.st.ino = false)
    (hlnk : o.st.isLnk = true)
    (hchown : o.chownOk = true)
    (hu : computeNewId offset o.st.uid = some newUid)
    (hg : computeNewId offset o.st.gid = some newGid) :
    process_file offset s o =
      ({ s with seen := inode_mark_seen s.seen o.st.dev o.st.ino,
                filesProcessed := s.filesProcessed + 1 }, 0,
        [FsAction.lchown o.st.dev o.st.ino newUid newGid]) ∧
    (∀ a ∈ (process_file offset s o).2.2,
      ∀ d i m, a ≠ FsAction.chmod d i m ∧ a ≠ FsAction.shiftAccessAcl d i ∧
        a ≠ FsAction.shiftDefaultAcl d i) := by
  have hmain : process_file offset s o =
      ({ s with seen := inode_mark_seen s.seen o.st.dev o.st.ino,
                filesProcessed := s.filesProcessed + 1 }, 0,
        [FsAction.lchown o.st.dev o.st.ino newUid newGid]) := by
    simp [process_file, hstat, hseen, hu, hg, hchown, hlnk]
  refine ⟨hmain, ?_⟩
  rw [hmain]
  intro a ha d i m
  simp only [List.mem_singleton] at ha
  subst ha
  refine ⟨by simp, by simp, by simp⟩

/-- Witness for `claim8_symlink` on the concrete symlink `c8Lnk` with offset
`+100000`. -/
theorem claim8_symlink_witness :
    process_file 100000 ⟨[], 0, 0⟩ c8Lnk =
      (⟨[(2, 11)], 1, 0⟩, 0, [FsAction.lchown 2 11 101000 101000]) ∧
    (∀ a ∈ (process_file 100000 ⟨[], 0, 0⟩ c8Lnk).2.2,
      ∀ d i m, a ≠ FsAction.chmod d i m ∧ a ≠ FsAction.shiftAccessAcl d i ∧
        a ≠ FsAction.shiftDefaultAcl d i) := by
  simpa [c8Lnk, inode_mark_seen] using
    claim8_symlink 100000 ⟨[], 0, 0⟩ c8Lnk 101000 101000
      (by decide) (by decide) (by decide) (by decide) (by decide) (by decide)

/-- The `needs_update` flag the in-memory pass of `shift_acl` returns is
exactly "some USER/GROUP entry with a qualifier exists". -/
theorem shiftEntries_upd (offset : Int) (l : List AclEntry) :
    ∀ es upd, shiftEntries offset l = some (es, upd) → upd = l.any isShiftable := by
  induction l with
  | nil =>
    intro es upd h
    simp only [shiftEntries, Option.some.injEq, Prod.mk.injEq] at h
    simp [h.2]
  | cons e rest ih =>
    intro es upd h
    simp only [shiftEntries] at h
    by_cases htag : e.tag = AclTag.user ∨ e.tag = AclTag.group
    · rw [if_pos htag] at h
      cases hq : e.qualifier with
      | none =>
        simp only [hq] at h
        cases hs : shiftEntries offset rest with
        | none => simp only [hs] at h; exact absurd h (by simp)
        | some v =>
          obtain ⟨rest', upd'⟩ := v
          simp only [hs] at h
          simp only [Option.some.injEq, Prod.mk.injEq] at h
          have := ih rest' upd' hs
          simp only [List.any_cons, isShiftable, hq]
          rw [← h.2, this]
          simp
      | some q =>
        simp only [hq] at h
        cases hc : computeNewId offset q with
        | none => simp only [hc] at h; exact absurd h (by simp)
        | some newId =>
          simp only [hc] at h
          cases hs : shiftEntries offset rest with
          | none => simp only [hs] at h; exact absurd h (by simp)
          | some v =>
            obtain ⟨rest', upd'⟩ := v
            simp only [hs] at h
            simp only [Option.some.injEq, Prod.mk.injEq] at h
            simp only [List.any_cons, isShiftable, hq]
            rw [← h.2]
            rcases htag with ht | ht <;> simp [ht]
    · rw [if_neg htag] at h
      cases hs : shiftEntries offset rest with
      | none => simp only [hs] at h; exact absurd h (by simp)
      | some v =>
        obtain ⟨rest', upd'⟩ := v
        simp only [hs] at h
        simp only [Option.some.injEq, Prod.mk.injEq] at h
        have := ih rest' upd' hs
        have hnu : (e.tag == AclTag.user) = false := by
          rw [beq_eq_false_iff_ne]
          intro hcon
          exact htag (Or.inl hcon)
        have hng : (e.tag == AclTag.group) = false := by
          rw [beq_eq_false_iff_ne]
          intro hcon
          exact htag (Or.inr hcon)
        simp only [List.any_cons, isShiftable, hnu, hng]
        rw [← h.2, this]
        simp

/-- A USER/GROUP entry whose qualifier violates the bounds aborts the whole
in-memory pass, wherever it sits in the entry list. -/
theorem shiftEntries_none_of_bad (offset : Int) (l : List AclEntry) :
    ∀ e ∈ l, (e.tag = AclTag.user ∨ e.tag = AclTag.group) →
      ∀ q, e.qualifier = some q → computeNewId offset q = none →
        shiftEntries offset l = none := by
  induction l with
  | nil => intro e he; exact absurd he (List.not_mem_nil e)
  | cons x rest ih =>
    intro e he htag q hq hc
    rcases List.mem_cons.mp he with rfl | hmem
    · simp only [shiftEntries]
      rw [if_pos htag]
      simp only [hq, hc]
    · have hrest := ih e hmem htag q hq hc
      simp only [shiftEntries, hrest]
      by_cases htx : x.tag = AclTag.user ∨ x.tag = AclTag.group
      · rw [if_pos htx]
        cases hqx : x.qualifier with
        | none => simp
        | some qx =>
          cases hcx : computeNewId offset qx with
          | none => simp [hcx]
          | some nid => simp [hcx]
      · rw [if_neg htx]

/-- C7: the ACL shift on one object and variant (i) succeeds with no change
(nothing written) when the filesystem reports ACLs unsupported, (ii) writes
an ACL back only when at least one USER/GROUP entry with a qualifier was
modified, and (iii) on a qualifier bounds violation returns an error with
nothing written — the single write sits after the whole in-memory pass. -/
theorem claim7_shift_acl (offset : Int) (entries : List AclEntry) :
    (shift_acl offset AclGetResult.unsupported = ShiftResult.success none) ∧
    (∀ written,
      shift_acl offset (AclGetResult.ok entries) = ShiftResult.success (some written) →
        entries.any isShiftable = true) ∧
    ((∃ e ∈ entries, (e.tag = AclTag.user ∨ e.tag = AclTag.group) ∧
        ∃ q, e.qualifier = some q ∧ computeNewId offset q = none) →
      shift_acl offset (AclGetResult.ok entries) = ShiftResult.err) := by
  refine ⟨rfl, ?_, ?_⟩
  · intro w h
    simp only [shift_acl] at h
    cases hs : shiftEntries offset entries with
    | none => rw [hs] at h; exact absurd h (by simp)
    | some v =>
      obtain ⟨es, upd⟩ := v
      simp only [hs] at h
      cases hupd : upd with
      | false => rw [hupd] at h; simp at h
      | true => rw [← shiftEntries_upd offset entries es upd hs, hupd]
  · rintro ⟨e, he, htag, q, hq, hc⟩
    have hnone := shiftEntries_none_of_bad offset entries e he htag q hq hc
    simp [shift_acl, hnone]

/-- Witness for `claim7_shift_acl`: a written-back ACL implies a shiftable
entry (offset `+100000`, one USER entry), and a bounds-violating USER entry
(qualifier 5, offset `-100000`) yields `err`. -/
theorem claim7_shift_acl_witness :
    ([⟨AclTag.user, some 1000⟩] : List AclEntry).any isShiftable = true ∧
      shift_acl (-100000) (AclGetResult.ok [⟨AclTag.user, some 5⟩]) = ShiftResult.err :=
  ⟨(claim7_shift_acl 100000 [⟨AclTag.user, some 1000⟩]).2.1
      [⟨AclTag.user, some 101000⟩] (by decide),
    (claim7_shift_acl (-100000) [⟨AclTag.user, some 5⟩]).2.2
      ⟨⟨AclTag.user, some 5⟩, List.mem_singleton.mpr rfl, Or.inl rfl, 5, rfl, by decide⟩⟩

/-- Once inside a snapshot section with the flag already written, every
remaining line is copied verbatim. -/
theorem updateLines_snapshot (n : Int) (l : List Line) :
    updateLines n true true l = l := by
  induction l with
  | nil => rfl
  | cons x rest ih =>
    simp only [updateLines]
    split
    · rw [if_neg (by simp), ih]
    · rw [if_neg (by simp), ih]

/-- After the flag has been written while still in the primary section, the
rest of the primary section is copied with flag lines replaced and everything
from the first boundary on is copied verbatim. -/
theorem updateLines_updated (n : Int) (l : List Line) :
    updateLines n true false l =
      (l.takeWhile (fun x => !isBoundary x)).map (replaceFlag n) ++
        l.dropWhile (fun x => !isBoundary x) := by
  induction l with
  | nil => rfl
  | cons x rest ih =>
    simp only [updateLines]
    by_cases hb : isBoundary x
    · rw [if_pos hb, if_neg (by simp)]
      rw [updateLines_snapshot]
      rw [List.takeWhile_cons, List.dropWhile_cons]
      simp [hb]
    · rw [if_neg (by simpa using hb)]
      rw [List.takeWhile_cons, List.dropWhile_cons]
      by_cases hf : isFlagLine x
      · rw [if_pos (by simp [hf])]
        simp [hb, hf, replaceFlag, ih]
      · rw [if_neg (by simp [hf])]
        simp [hb, hf, replaceFlag, ih]

/-- C6: `update_config` rewrites the flag only in the primary section — the
lines before the first `[` boundary are copied with every flag line replaced
by the new flag line; when no primary flag line exists, the new flag line is
inserted right before the boundary (which is also the end of file when there
is no trailing section, giving exactly one appended flag line); and every
line from the first boundary on — flag-looking lines of snapshot sections
included — is copied verbatim. -/
theorem claim6_update_config (n : Int) (lines : List Line) :
    update_config n lines =
      (lines.takeWhile (fun x => !isBoundary x)).map (replaceFlag n) ++
        (if (lines.takeWhile (fun x => !isBoundary x)).any isFlagLine then []
          else [flagLine n]) ++
        lines.dropWhile (fun x => !isBoundary x) := by
  unfold update_config
  induction lines with
  | nil => rfl
  | cons x rest ih =>
    simp only [updateLines]
    by_cases hb : isBoundary x
    · rw [if_pos hb, if_pos (by simp)]
      rw [updateLines_snapshot]
      rw [List.takeWhile_cons, List.dropWhile_cons]
      simp [hb]
    · rw [if_neg (by simpa using hb)]
      rw [List.takeWhile_cons, List.dropWhile_cons]
      by_cases hf : isFlagLine x
      · rw [if_pos (by simp [hf])]
        rw [updateLines_updated]
        simp [hb, hf, replaceFlag]
      · rw [if_neg (by simp [hf])]
        simp [hb, hf, replaceFlag, ih]

/-- Counting `lchown` actions distributes over trace concatenation. -/
theorem chownCount_append (t1 t2 : List FsAction) (d i : Nat) :
    chownCount (t1 ++ t2) d i = chownCount t1 d i + chownCount t2 d i := by
  simp [chownCount, List.countP_append]

/-- One converter step never removes entries from the inode table. -/
theorem process_file_seen_mono (offset : Int) (s : RunState) (o : VisitObj) :
    ∀ p ∈ s.seen, p ∈ (process_file offset s o).1.seen := by
  intro p hp
  unfold process_file
  repeat' split
  all_goals simp_all [inode_mark_seen, List.mem_cons]

/-- A visit of an already-seen `(dev, ino)` pair is skipped: no mutation, no
counter change, traversal continues. -/
theorem process_file_skip (offset : Int) (s : RunState) (o : VisitObj)
    (hstat : o.statOk = true) (hseen : inode_seen s.seen o.st.dev o.st.ino = true) :
    process_file offset s o = (s, 0, []) := by
  simp [process_file, hstat, hseen]

/-- One converter step emits at most one `lchown` for any `(dev, ino)`. -/
theorem process_file_chownCount_le (offset : Int) (s : RunState) (o : VisitObj)
    (d i : Nat) : chownCount (process_file offset s o).2.2 d i ≤ 1 := by
  unfold process_file
  repeat' split
  all_goals simp_all [chownCount, List.countP_cons, List.countP_nil]
  all_goals split <;> simp

/-- One converter step emits no `lchown` for a pair already in the table. -/
theorem process_file_chownCount_seen (offset : Int) (s : RunState) (o : VisitObj)
    (d i : Nat) (h : inode_seen s.seen d i = true) :
    chownCount (process_file offset s o).2.2 d i = 0 := by
  unfold process_file
  repeat' split
  all_goals simp_all [chownCount, List.countP_cons, List.countP_nil]
  all_goals (rintro rfl rfl; simp_all)

/-- A pair an `lchown` was emitted for is in the table afterwards (the mark
happens before the mutation). -/
theorem process_file_chownCount_mark (offset : Int) (s : RunState) (o : VisitObj)
    (d i : Nat) :
    1 ≤ chownCount (process_file offset s o).2.2 d i →
      inode_seen (process_file offset s o).1.seen d i = true := by
  unfold process_file
  repeat' split
  all_goals intro hcount
  all_goals simp_all [chownCount, List.countP_cons, List.countP_nil, inode_mark_seen,
    inode_seen]
  all_goals
    split at hcount
    next hdi => exact Or.inl ⟨hdi.1.symm, hdi.2.symm⟩
    next => omega

/-- The tree walk never removes entries from the inode table. -/
theorem walkList_seen_mono (offset : Int) (l : List VisitObj) :
    ∀ s, ∀ p ∈ s.seen, p ∈ (walkList offset s l).1.seen := by
  induction l with
  | nil => intro s p hp; exact hp
  | cons o rest ih =>
    intro s p hp
    simp only [walkList]
    split
    · exact process_file_seen_mono offset s o p hp
    · exact ih _ _ (process_file_seen_mono offset s o p hp)

/-- A walk starting with `(d, i)` in the table emits no `lchown` for it. -/
theorem walkList_chownCount_seen (offset : Int) (l : List VisitObj) :
    ∀ s d i, inode_seen s.seen d i = true →
      chownCount (walkList offset s l).2.2 d i = 0 := by
  induction l with
  | nil => intro s d i _; rfl
  | cons o rest ih =>
    intro s d i h
    have h1 := process_file_chownCount_seen offset s o d i h
    have h2 : inode_seen (process_file offset s o).1.seen d i = true := by
      have := process_file_seen_mono offset s o (d, i) (by simpa [inode_seen] using h)
      simpa [inode_seen] using this
    simp only [walkList]
    split
    · exact h1
    · have h3 := ih (process_file offset s o).1 d i h2
      simp only [chownCount_append, h1, h3]

/-- A walk emits at most one `lchown` per `(dev, ino)` pair. -/
theorem walkList_chownCount_le (offset : Int) (l : List VisitObj) :
    ∀ s d i, chownCount (walkList offset s l).2.2 d i ≤ 1 := by
  induction l with
  | nil => intro s d i; simp [walkList, chownCount]
  | cons o rest ih =>
    intro s d i
    simp only [walkList]
    split
    · exact process_file_chownCount_le offset s o d i
    · simp only [chownCount_append]
      rcases Nat.eq_zero_or_pos (chownCount (process_file offset s o).2.2 d i) with h0 | hpos
      · rw [h0]
        simpa using ih (process_file offset s o).1 d i
      · have hseen := process_file_chownCount_mark offset s o d i hpos
        have hz := walkList_chownCount_seen offset rest (process_file offset s o).1 d i hseen
        have hle := process_file_chownCount_le offset s o d i
        omega

/-- After the walk, any pair an `lchown` was emitted for is in the table. -/
theorem walkList_chownCount_mark (offset : Int) (l : List VisitObj) :
    ∀ s d i, 1 ≤ chownCount (walkList offset s l).2.2 d i →
      inode_seen (walkList offset s l).1.seen d i = true := by
  induction l with
  | nil => intro s d i h; simp [walkList, chownCount] at h
  | cons o rest ih =>
    intro s d i h
    simp only [walkList] at h ⊢
    by_cases hc : (process_file offset s o).2.1 ≠ 0
    · rw [if_pos hc] at h ⊢
      exact process_file_chownCount_mark offset s o d i h
    · rw [if_neg hc] at h ⊢
      simp only [chownCount_append] at h
      rcases Nat.eq_zero_or_pos (chownCount (process_file offset s o).2.2 d i) with h0 | hpos
      · rw [h0] at h
        simp only [Nat.zero_add] at h
        exact ih _ d i h
      · have hseen := process_file_chownCount_mark offset s o d i hpos
        have := walkList_seen_mono offset rest (process_file offset s o).1 (d, i)
          (by simpa [inode_seen] using hseen)
        simpa [inode_seen] using this

/-- `convert_path` threads the inode table monotonically. -/
theorem convert_path_seen_mono (offset : Int) (seen : List (Nat × Nat)) (p : PathSpec) :
    ∀ q ∈ seen, q ∈ (convert_path offset seen p).1 := by
  intro q hq
  unfold convert_path
  repeat' split
  · exact hq
  · exact hq
  · exact walkList_seen_mono offset p.objs ⟨seen, 0, 0⟩ q hq

/-- A path conversion starting with `(d, i)` in the table emits no `lchown`
for it. -/
theorem convert_path_count_seen (offset : Int) (seen : List (Nat × Nat)) (p : PathSpec)
    (d i : Nat) (h : (d, i) ∈ seen) :
    chownCount (convert_path offset seen p).2.trace d i = 0 := by
  unfold convert_path
  repeat' split
  · rfl
  · rfl
  · exact walkList_chownCount_seen offset p.objs ⟨seen, 0, 0⟩ d i
      (by simpa [inode_seen] using h)

/-- A path conversion emits at most one `lchown` per pair. -/
theorem convert_path_count_le (offset : Int) (seen : List (Nat × Nat)) (p : PathSpec)
    (d i : Nat) : chownCount (convert_path offset seen p).2.trace d i ≤ 1 := by
  unfold convert_path
  repeat' split
  · simp [chownCount]
  · simp [chownCount]
  · exact walkList_chownCount_le offset p.objs ⟨seen, 0, 0⟩ d i

/-- After a path conversion, any pair an `lchown` was emitted for is in the
threaded table. -/
theorem convert_path_count_mark (offset : Int) (seen : List (Nat × Nat)) (p : PathSpec)
    (d i : Nat) (h : 1 ≤ chownCount (convert_path offset seen p).2.trace d i) :
    (d, i) ∈ (convert_path offset seen p).1 := by
  unfold convert_path at h ⊢
  by_cases h1 : p.pathOk = false
  · rw [if_pos h1] at h
    simp [chownCount] at h
  · rw [if_neg h1] at h ⊢
    by_cases h2 : p.isDir = false
    · rw [if_pos h2] at h
      simp [chownCount] at h
    · rw [if_neg h2] at h ⊢
      have := walkList_chownCount_mark offset p.objs ⟨seen, 0, 0⟩ d i h
      simpa [inode_seen] using this

/-- The driver loop maintains the at-most-one-`lchown`-per-pair invariant
across every target path of the run, because the inode table is global. -/
theorem runPaths_chown_inv (offset : Int) (ps : List PathSpec) :
    ∀ seen d i,
      chownCount (((runPaths offset seen ps).2.map (fun r => r.trace)).flatten) d i ≤ 1 ∧
      ((d, i) ∈ seen →
        chownCount (((runPaths offset seen ps).2.map (fun r => r.trace)).flatten) d i = 0) ∧
      (1 ≤ chownCount (((runPaths offset seen ps).2.map (fun r => r.trace)).flatten) d i →
        (d, i) ∈ (runPaths offset seen ps).1) ∧
      (∀ q ∈ seen, q ∈ (runPaths offset seen ps).1) := by
  induction ps with
  | nil =>
    intro seen d i
    refine ⟨by simp [runPaths, chownCount], fun _ => by simp [runPaths, chownCount],
      fun h => absurd h (by simp [runPaths, chownCount]), fun q hq => hq⟩
  | cons p rest ih =>
    intro seen d i
    have hstep_le := convert_path_count_le offset seen p d i
    obtain ⟨ih_le, ih_seen, ih_mark, ih_mono⟩ := ih (convert_path offset seen p).1 d i
    have hflat : ((runPaths offset seen (p :: rest)).2.map (fun r => r.trace)).flatten =
        (convert_path offset seen p).2.trace ++
          ((runPaths offset (convert_path offset seen p).1 rest).2.map
            (fun r => r.trace)).flatten := by
      simp [runPaths]
    refine ⟨?_, ?_, ?_, ?_⟩
    · rw [hflat, chownCount_append]
      rcases Nat.eq_zero_or_pos (chownCount (convert_path offset seen p).2.trace d i)
        with h0 | hpos
      · omega
      · have hmem := convert_path_count_mark offset seen p d i hpos
        have hz := ih_seen hmem
        omega
    · intro hmem
      rw [hflat, chownCount_append]
      have h1 := convert_path_count_seen offset seen p d i hmem
      have h2 := ih_seen (convert_path_seen_mono offset seen p (d, i) hmem)
      omega
    · intro hcount
      rw [hflat, chownCount_append] at hcount
      have hfinal : (runPaths offset seen (p :: rest)).1 =
          (runPaths offset (convert_path offset seen p).1 rest).1 := by
        simp [runPaths]
      rw [hfinal]
      rcases Nat.eq_zero_or_pos
        (chownCount (((runPaths offset (convert_path offset seen p).1 rest).2.map
          (fun r => r.trace)).flatten) d i) with h0 | hpos
      · have hp1 : 1 ≤ chownCount (convert_path offset seen p).2.trace d i := by omega
        exact ih_mono (d, i) (convert_path_count_mark offset seen p d i hp1)
      · exact ih_mark hpos
    · intro q hq
      have hfinal : (runPaths offset seen (p :: rest)).1 =
          (runPaths offset (convert_path offset seen p).1 rest).1 := by
        simp [runPaths]
      rw [hfinal]
      exact ih_mono q (convert_path_seen_mono offset seen p q hq)

/-- C4: for every `(device, inode)` pair, the ownership mutation is attempted
at most once per conversion run — across all hardlinks and all target paths,
because the inode table is global to the run — and any visit of a pair
already in the table is skipped with no mutation and no state change. -/
theorem claim4_at_most_once (offset : Int) (ps : List PathSpec) (d i : Nat)
    (s : RunState) (o : VisitObj) :
    chownCount (runTrace offset ps) d i ≤ 1 ∧
      (o.statOk = true → inode_seen s.seen o.st.dev o.st.ino = true →
        process_file offset s o = (s, 0, [])) := by
  refine ⟨?_, fun h1 h2 => process_file_skip offset s o h1 h2⟩
  have h := (runPaths_chown_inv offset ps [] d i).1
  simpa [runTrace, mainConvert] using h

/-- Witness for `claim4_at_most_once`: the hardlink scenario run touches
inode `(1, 5)` at most once, and a repeat visit of `(1, 5)` (the hardlink
`c9B` with the pair already in the table) is skipped without mutation. -/
theorem claim4_at_most_once_witness :
    chownCount (runTrace 100000 [⟨true, true, c9Objs⟩]) 1 5 ≤ 1 ∧
      process_file 100000 ⟨[(1, 5)], 0, 0⟩ c9B = (⟨[(1, 5)], 0, 0⟩, 0, []) :=
  ⟨(claim4_at_most_once 100000 [⟨true, true, c9Objs⟩] 1 5 ⟨[(1, 5)], 0, 0⟩ c9B).1,
    (claim4_at_most_once 100000 [⟨true, true, c9Objs⟩] 1 5 ⟨[(1, 5)], 0, 0⟩ c9B).2
      (by decide) (by decide)⟩

/-- One converter step never decreases the error counter, and a
traversal-stopping return strictly increases it. -/
theorem process_file_errors (offset : Int) (s : RunState) (o : VisitObj) :
    s.errors ≤ (process_file offset s o).1.errors ∧
      ((process_file offset s o).2.1 ≠ 0 → s.errors < (process_file offset s o).1.errors) := by
  unfold process_file
  repeat' split
  all_goals simp_all

/-- The walk never decreases the error counter, and an aborted walk strictly
increases it — which is why an early `nftw` stop still fails the path even
though `convert_path` only tests `g_errors > 0`. -/
theorem walkList_errors (offset : Int) (l : List VisitObj) :
    ∀ s, s.errors ≤ (walkList offset s l).1.errors ∧
      ((walkList offset s l).2.1 ≠ 0 → s.errors < (walkList offset s l).1.errors) := by
  induction l with
  | nil => intro s; exact ⟨le_refl _, fun hc => absurd rfl hc⟩
  | cons o rest ih =>
    intro s
    simp only [walkList]
    split
    · exact process_file_errors offset s o
    · have h1 := process_file_errors offset s o
      have h2 := ih (process_file offset s o).1
      exact ⟨le_trans h1.1 h2.1, fun hc => lt_of_le_of_lt h1.1 (h2.2 hc)⟩

/-- `convert_path` succeeds exactly when the walk completed and the error
count is zero. -/
theorem convert_path_success_iff (offset : Int) (seen : List (Nat × Nat)) (p : PathSpec) :
    (convert_path offset seen p).2.success = true ↔
      (convert_path offset seen p).2.completed = true ∧
        (convert_path offset seen p).2.errors = 0 := by
  unfold convert_path
  repeat' split
  · simp
  · simp
  · have hw := walkList_errors offset p.objs ⟨seen, 0, 0⟩
    simp only [decide_eq_true_eq]
    constructor
    · intro h0
      refine ⟨?_, h0⟩
      by_contra hne
      have h5 : (0 : Nat) < (walkList offset ⟨seen, 0, 0⟩ p.objs).1.errors := hw.2 hne
      omega
    · exact fun h => h.2

/-- The driver produces one result per target path. -/
theorem runPaths_length (offset : Int) (ps : List PathSpec) :
    ∀ seen, (runPaths offset seen ps).2.length = ps.length := by
  induction ps with
  | nil => intro seen; rfl
  | cons p rest ih => intro seen; simp [runPaths, ih]

/-- Every result the driver collects satisfies the success
characterization. -/
theorem runPaths_success_iff (offset : Int) (ps : List PathSpec) :
    ∀ seen r, r ∈ (runPaths offset seen ps).2 →
      (r.success = true ↔ r.completed = true ∧ r.errors = 0) := by
  induction ps with
  | nil => intro seen r hr; simp [runPaths] at hr
  | cons p rest ih =>
    intro seen r hr
    simp only [runPaths] at hr
    rcases List.mem_cons.mp hr with rfl | hmem
    · exact convert_path_success_iff offset seen p
    · exact ih _ r hmem

/-- C1: the driver attempts every target path (one result per path), the
config rewrite is gated on every path having completed its walk with zero
per-object errors, and whenever the aggregate gate is false the run leaves
the configuration file untouched. -/
theorem claim1_config_gate (offset : Int) (ps : List PathSpec) (cfg : List Line)
    (target : Bool) (f : Line → PathSpec) :
    ((mainConvert offset ps).2.length = ps.length) ∧
    (configWritten offset ps = true ↔
      ∀ r ∈ (mainConvert offset ps).2, r.completed = true ∧ r.errors = 0) ∧
    (configWritten (if target then UID_GID_OFFSET else -UID_GID_OFFSET)
        ((configPaths cfg).map f) = false →
      (mainRun cfg target f).finalConfig = cfg) := by
  refine ⟨runPaths_length offset ps [], ?_, ?_⟩
  · unfold configWritten mainConvert
    simp only [List.all_eq_true]
    constructor
    · intro hall r hr
      exact (runPaths_success_iff offset ps [] r hr).mp (hall r hr)
    · intro hall r hr
      exact (runPaths_success_iff offset ps [] r hr).mpr (hall r hr)
  · intro hfalse
    unfold mainRun
    cases hrc : read_config cfg with
    | none => rfl
    | some v =>
      obtain ⟨paths, cur⟩ := v
      have hp : configPaths cfg = paths := by simp [configPaths, hrc]
      rw [hp] at hfalse
      simp only [hrc]
      by_cases hlen : paths.length = 0
      · rw [if_pos hlen]
      · rw [if_neg hlen]
        by_cases hst : cur ≠ -1 ∧ cur = (if target then 1 else 0)
        · rw [if_pos hst]
        · rw [if_neg hst]
          rw [if_neg (by rw [hfalse]; exact Bool.false_ne_true)]

/-- Witness for `claim1_config_gate`: on `c1Cfg` with a resolver whose paths
all fail their stat, the aggregate gate is false and the configuration
content is unchanged. -/
theorem claim1_config_gate_witness :
    (mainRun c1Cfg true noFs).finalConfig = c1Cfg :=
  (claim1_config_gate 100000 [] c1Cfg true noFs).2.2 (by decide)

/-- A non-negative offset whose wrapped sum with the old uid or gid exceeds
`MAX_UID_GID` makes `process_file` mark the pair, count one error and return
the traversal-stopping value `1` with no mutation. -/
theorem process_file_overflow (offset : Int) (s : RunState) (o : VisitObj)
    (hpos : 0 ≤ offset)
    (hstat : o.statOk = true) (hseen : inode_seen s.seen o.st.dev o.st.ino = false)
    (hover : (o.st.uid + Int.toNat offset % UID_MOD) % UID_MOD > MAX_UID_GID ∨
      (o.st.gid + Int.toNat offset % UID_MOD) % UID_MOD > MAX_UID_GID) :
    process_file offset s o =
      ({ s with seen := inode_mark_seen s.seen o.st.dev o.st.ino,
                errors := s.errors + 1 }, 1, []) := by
  have hnone : computeNewId offset o.st.uid = none ∨ computeNewId offset o.st.gid = none := by
    rcases hover with h | h
    · left
      simp only [computeNewId]
      rw [if_neg (by omega : ¬ offset < 0), if_pos h]
    · right
      simp only [computeNewId]
      rw [if_neg (by omega : ¬ offset < 0), if_pos h]
  simp only [process_file, hstat, hseen]
  cases hu : computeNewId offset o.st.uid <;> cases hg : computeNewId offset o.st.gid <;>
    simp_all

/-- A walk prefix that ran to completion composes with the walk of the
remaining entries. -/
theorem walkList_append (offset : Int) (l1 l2 : List VisitObj) :
    ∀ s s1 tr1, walkList offset s l1 = (s1, 0, tr1) →
      walkList offset s (l1 ++ l2) =
        ((walkList offset s1 l2).1, (walkList offset s1 l2).2.1,
          tr1 ++ (walkList offset s1 l2).2.2) := by
  induction l1 with
  | nil =>
    intro s s1 tr1 h
    simp only [walkList, Prod.mk.injEq] at h
    obtain ⟨rfl, -, rfl⟩ := h
    simp only [List.nil_append]
  | cons o rest ih =>
    intro s s1 tr1 h
    simp only [walkList] at h
    by_cases hc : (process_file offset s o).2.1 ≠ 0
    · rw [if_pos hc] at h
      have : (process_file offset s o).2.1 = 0 := by rw [h]
      exact absurd this hc
    · rw [if_neg hc] at h
      simp only [Prod.mk.injEq] at h
      obtain ⟨h1, h2, h3⟩ := h
      have hrest : walkList offset (process_file offset s o).1 rest =
          ((walkList offset (process_file offset s o).1 rest).1, 0,
            (walkList offset (process_file offset s o).1 rest).2.2) := by
        rw [← h2]
      have hih := ih (process_file offset s o).1
        (walkList offset (process_file offset s o).1 rest).1
        (walkList offset (process_file offset s o).1 rest).2.2 hrest
      simp only [List.cons_append, walkList, List.append_eq]
      rw [if_neg hc, hih, h1, ← h3]
      simp [List.append_assoc]

/-- C3: with a positive offset, an object whose new uid or gid would exceed
`MAX_UID_GID` stops the walk of that root path at that object — nothing after
it in the visit sequence is converted and the object itself is not mutated —
the path's conversion reports neither success nor completion, and the
aggregate gate of a run containing that path is false, so the configuration
flag is not rewritten. -/
theorem claim3_overflow_stops (offset : Int) (o : VisitObj) (pre rest : List VisitObj)
    (p : PathSpec) (ps2 : List PathSpec) (s1 : RunState) (tr1 : List FsAction)
    (hpos : 0 < offset)
    (hstat : o.statOk = true)
    (hpre : walkList offset ⟨[], 0, 0⟩ pre = (s1, 0, tr1))
    (hseen : inode_seen s1.seen o.st.dev o.st.ino = false)
    (hover : (o.st.uid + Int.toNat offset % UID_MOD) % UID_MOD > MAX_UID_GID ∨
      (o.st.gid + Int.toNat offset % UID_MOD) % UID_MOD > MAX_UID_GID)
    (hobjs : p.objs = pre ++ o :: rest)
    (hok : p.pathOk = true) (hdir : p.isDir = true) :
    walkList offset ⟨[], 0, 0⟩ p.objs =
      ({ s1 with seen := inode_mark_seen s1.seen o.st.dev o.st.ino,
                 errors := s1.errors + 1 }, 1, tr1) ∧
    (convert_path offset [] p).2.success = false ∧
    (convert_path offset [] p).2.completed = false ∧
    configWritten offset (p :: ps2) = false := by
  have hbad := process_file_overflow offset s1 o (le_of_lt hpos) hstat hseen hover
  have hstep : walkList offset s1 (o :: rest) =
      ({ s1 with seen := inode_mark_seen s1.seen o.st.dev o.st.ino,
                 errors := s1.errors + 1 }, 1, []) := by
    simp only [walkList, hbad]
    rfl
  have hwalk : walkList offset ⟨[], 0, 0⟩ p.objs =
      ({ s1 with seen := inode_mark_seen s1.seen o.st.dev o.st.ino,
                 errors := s1.errors + 1 }, 1, tr1) := by
    rw [hobjs, walkList_append offset pre (o :: rest) ⟨[], 0, 0⟩ s1 tr1 hpre, hstep]
    simp
  have hcp : convert_path offset [] p =
      ((inode_mark_seen s1.seen o.st.dev o.st.ino),
        ⟨decide (s1.errors + 1 = 0), decide ((1 : Nat) = 0),
          s1.filesProcessed, s1.errors + 1, tr1⟩) := by
    unfold convert_path
    rw [if_neg (by simp [hok]), if_neg (by simp [hdir]), hwalk]
  refine ⟨hwalk, ?_, ?_, ?_⟩
  · rw [hcp]
    simp
  · rw [hcp]
    simp
  · unfold configWritten mainConvert
    simp only [runPaths, List.all_cons]
    rw [hcp]
    simp

/-- Witness for `claim3_overflow_stops`: the single-object tree `c3Path`
(uid 150000, offset `+100000`) aborts immediately and fails the gate. -/
theorem claim3_overflow_stops_witness :
    walkList 100000 ⟨[], 0, 0⟩ c3Path.objs = (⟨[(4, 20)], 0, 1⟩, 1, []) ∧
      (convert_path 100000 [] c3Path).2.success = false ∧
      (convert_path 100000 [] c3Path).2.completed = false ∧
      configWritten 100000 [c3Path] = false := by
  have h := claim3_overflow_stops 100000 c3Obj [] [] c3Path [] ⟨[], 0, 0⟩ []
    (by decide) (by decide) rfl (by decide) (by decide) rfl (by decide) (by decide)
  simpa [c3Obj, c3Path, inode_mark_seen] using h

/-- C9, counterexample: in the two-level hardlink scenario (offset
`+100000`), inode `(1, 5)` does end up with uid 101000 — reported by both
`a` and `b` — and the inode table holds exactly one entry for it, but the
processed count is not 2: the callback counts the two directories and the
first occurrence of the file (3 increments) and skips the hardlink `b`
before the `g_files_processed++`. -/
theorem claim9_counterexample :
    applyActions c9InitFs (walkList 100000 ⟨[], 0, 0⟩ c9Objs).2.2 (1, 5) = (101000, 101000) ∧
      (walkList 100000 ⟨[], 0, 0⟩ c9Objs).1.seen.count (1, 5) = 1 ∧
      (walkList 100000 ⟨[], 0, 0⟩ c9Objs).1.filesProcessed ≠ 2 := by
  decide

/-- C9, amended: after the scenario conversion both directory entries of
inode `(1, 5)` report uid 101000, the inode table holds exactly one entry for
that inode, the walk completes without error, and the reported processed
count equals 3 — the root directory, `a`, and `sub` are counted while the
hardlink `b` is skipped without incrementing the counter. -/
theorem claim9_amended :
    applyActions c9InitFs (walkList 100000 ⟨[], 0, 0⟩ c9Objs).2.2 (1, 5) = (101000, 101000) ∧
      (walkList 100000 ⟨[], 0, 0⟩ c9Objs).1.seen.count (1, 5) = 1 ∧
      (walkList 100000 ⟨[], 0, 0⟩ c9Objs).1.filesProcessed = 3 ∧
      (walkList 100000 ⟨[], 0, 0⟩ c9Objs).1.errors = 0 ∧
      (walkList 100000 ⟨[], 0, 0⟩ c9Objs).2.1 = 0 := by
  decide

/-- C10, counterexample: a configuration whose primary section records the
requested target state (`unprivileged: 1`, target unprivileged) but contains
no storage entries makes the program exit with code 1 ("No filesystems found
in configuration"), not successfully — the no-paths check sits before the
already-in-target-state check. -/
theorem claim10_counterexample :
    read_config c10Cfg = some ([], 1) ∧ (mainRun c10Cfg true noFs).exitCode = 1 := by
  decide

/-- C10, amended: when the primary section records a state equal to the
requested target, the run performs no filesystem mutation and leaves the
configuration content unchanged, and it exits successfully precisely when at
least one storage path was extracted (with none it exits 1, still touching
nothing). -/
theorem claim10_amended (cfg : List Line) (target : Bool) (paths : List Line) (cur : Int)
    (f : Line → PathSpec)
    (hread : read_config cfg = some (paths, cur))
    (hcur : cur = (if target then 1 else 0)) :
    (mainRun cfg target f).trace = [] ∧ (mainRun cfg target f).finalConfig = cfg ∧
      ((mainRun cfg target f).exitCode = 0 ↔ paths ≠ []) := by
  unfold mainRun
  simp only [hread]
  by_cases hlen : paths.length = 0
  · rw [if_pos hlen]
    have hnil : paths = [] := List.length_eq_zero.mp hlen
    refine ⟨rfl, rfl, ?_⟩
    simp [hnil]
  · rw [if_neg hlen]
    have hne : cur ≠ -1 ∧ cur = (if target then 1 else 0) := by
      refine ⟨?_, hcur⟩
      subst hcur
      cases target <;> decide
    rw [if_pos hne]
    refine ⟨rfl, rfl, ?_⟩
    have hnn : paths ≠ [] := fun hnil => hlen (by simp [hnil])
    simp [hnn]

/-- Witness for `claim10_amended`: `c1Cfg` records `unprivileged: 0` and one
storage path; targeting privileged (`0`) exits 0 with nothing converted and
the configuration unchanged. -/
theorem claim10_amended_witness :
    (mainRun c1Cfg false noFs).trace = [] ∧
      (mainRun c1Cfg false noFs).finalConfig = c1Cfg ∧
      ((mainRun c1Cfg false noFs).exitCode = 0 ↔
        ["/local/subvol-101-disk-0".data] ≠ ([] : List Line)) :=
  claim10_amended c1Cfg false ["/local/subvol-101-disk-0".data] 0 noFs (by decide) (by decide)

end Privconvert
